import Mathlib

/-!
Verification of the myskills skill-manager core (Rust sources under
`src-tauri/src/services/`).  The Rust functions are shallowly embedded as
executable Lean definitions: string manipulation is done on `List Char`
via small helpers mirroring the `str` methods the source uses, the remote
GitHub API is modelled as an abstract responder (a function from paths to
listing / file-text results), and filesystem effects are modelled as
explicit traces of operations.  Machine integers in the source (`u32`
loop counters, `u64` millisecond durations) stay far below their bounds
at every call site, so they are modelled as `Nat`.
-/

namespace MySkills

/-! ## String helpers mirroring the Rust `str` methods used by the source -/

/-- Character-level split, mirroring Rust `str::split(c)`: every occurrence
of `c` separates two (possibly empty) fields. -/
def splitCharAux (c : Char) : List Char → List Char → List (List Char)
  | [], acc => [acc.reverse]
  | x :: xs, acc =>
    if x = c then acc.reverse :: splitCharAux c xs [] else splitCharAux c xs (x :: acc)

def splitChar (c : Char) (s : String) : List String :=
  (splitCharAux c s.toList []).map List.asString

/-- Rust `str::contains(c)` for a single character pattern. -/
def strContains (s : String) (c : Char) : Bool := s.toList.contains c

/-- Rust `str::starts_with(p)`. -/
def strStarts (s p : String) : Bool := p.toList.isPrefixOf s.toList

/-- Rust `str::ends_with(p)`. -/
def strEnds (s p : String) : Bool := p.toList.isSuffixOf s.toList

/-- ASCII whitespace recognizer; Rust `str::trim` removes Unicode whitespace,
of which only the ASCII part can occur in the claims considered here. -/
def isWsChar (c : Char) : Bool := c = ' ' || c = '\t' || c = '\n' || c = '\r'

/-- Rust `str::trim`. -/
def strTrim (s : String) : String :=
  (((s.toList.dropWhile isWsChar).reverse.dropWhile isWsChar).reverse).asString

/-- Rust `str::trim_matches(c)`: strip all leading and trailing copies of `c`. -/
def trimChar (c : Char) (s : String) : String :=
  (((s.toList.dropWhile (· = c)).reverse.dropWhile (· = c)).reverse).asString

/-- Rust `str::trim_start_matches(c)`. -/
def trimStartChar (c : Char) (s : String) : String :=
  (s.toList.dropWhile (· = c)).asString

/-- Rust `str::trim_matches('"').trim_matches('\'')` as applied to scalar
values and tags by the front-matter parsing code. -/
def trimQuotes (s : String) : String :=
  trimChar (Char.ofNat 39) (trimChar (Char.ofNat 34) s)

/-- Rust `str::split_once(c)`. -/
def splitOnceList (c : Char) : List Char → Option (List Char × List Char)
  | [] => none
  | x :: xs =>
    if x = c then some ([], xs)
    else (splitOnceList c xs).map (fun p => (x :: p.1, p.2))

def splitOnce (s : String) (c : Char) : Option (String × String) :=
  (splitOnceList c s.toList).map (fun p => (p.1.asString, p.2.asString))

/-- Rust `str::strip_prefix(p)`. -/
def stripPre (s p : String) : Option String :=
  if strStarts s p then some ((s.toList.drop p.toList.length).asString) else none

/-- First index at which `pat` occurs as a contiguous sublist of `l`,
mirroring Rust `str::find(pat)` (char-indexed; all patterns used are ASCII). -/
def findIdxOfSublist (pat : List Char) : List Char → Option Nat
  | [] => if pat.isPrefixOf [] then some 0 else none
  | x :: xs =>
    if pat.isPrefixOf (x :: xs) then some 0
    else (findIdxOfSublist pat xs).map (· + 1)

/-- Contiguous-sublist check used to express Rust substring containment. -/
def isSubList (pat : List Char) : List Char → Bool
  | [] => pat.isEmpty
  | x :: xs => pat.isPrefixOf (x :: xs) || isSubList pat xs

/-- Rust `str::contains(pat)` for a string pattern (substring relation). -/
def containsSub (hay pat : String) : Bool := isSubList pat.toList hay.toList

/-- ASCII lowercasing of one character; Rust `str::to_lowercase` restricted
to ASCII (the keyword matching in the source only involves ASCII). -/
def asciiLower (c : Char) : Char :=
  if 65 ≤ c.toNat && c.toNat ≤ 90 then Char.ofNat (c.toNat + 32) else c

def strLower (s : String) : String := (s.toList.map asciiLower).asString

/-- Rust `str::eq_ignore_ascii_case`. -/
def eqIgnoreAsciiCase (a b : String) : Bool :=
  a.toList.map asciiLower = b.toList.map asciiLower

/-- Rust `str::lines()`: split on newline, drop a final empty piece, strip a
trailing carriage return from each line. -/
def rustLines (s : String) : List String :=
  let raw := splitChar '\n' s
  let raw := if raw.getLast? = some "" then raw.dropLast else raw
  raw.map (fun l => if strEnds l "\r" then (l.toList.dropLast).asString else l)

/-- Per-character replacement, mirroring Rust `str::replace(c, d)` with
single-character pattern and replacement. -/
def replaceChar (c d : Char) (s : String) : String :=
  (s.toList.map (fun x => if x = c then d else x)).asString

/-- Rust `str::replace(c, "")`: delete every occurrence of `c`. -/
def removeChar (c : Char) (s : String) : String :=
  (s.toList.filter (fun x => x ≠ c)).asString

def strTake (s : String) (n : Nat) : String := (s.toList.take n).asString

def strDrop (s : String) (n : Nat) : String := (s.toList.drop n).asString

/-! ## Data model (`models/mod.rs`) -/

/-- Enumeration `SkillCategory`. -/
inductive SkillCategory where
  | development
  | dataCat
  | writing
  | business
  | creative
  | productivity
  | other
deriving DecidableEq, Repr

/-- Struct `SkillMetadata`: all fields independently optional. -/
structure SkillMetadata where
  name : Option String := none
  description : Option String := none
  author : Option String := none
  tags : Option (List String) := none
deriving DecidableEq, Repr

/-- Struct `Skill`. -/
structure Skill where
  id : String
  name : String
  description : String
  repository : String
  git_ref : Option String
  path : String
  category : SkillCategory
  readme : Option String
  metadata : Option SkillMetadata
  installed_at : Option String
deriving DecidableEq, Repr

/-- Struct `GitHubContent` (one remote listing entry). -/
structure GitHubContent where
  name : String
  path : String
  content_type : String
  content : Option String := none
  download_url : Option String := none
deriving DecidableEq, Repr

/-- Enum `GitHubError` (`services/github.rs`); the `Network` payload is the
rendered transport / decode error message. -/
inductive GitHubError where
  | network (msg : String)
  | parse (msg : String)
  | rateLimited
  | notFound (what : String)
deriving DecidableEq, Repr

/-! ## Front-matter parser (`parse_skill_md` and helpers, github.rs 409-506) -/

/-- Rust `parse_inline_tags` (github.rs 482-493). -/
def parse_inline_tags (value : String) : List String :=
  let v := strTrim value
  let v :=
    if strStarts v "[" && strEnds v "]" && 2 ≤ v.toList.length
    then (v.toList.drop 1).dropLast.asString else v
  ((splitChar ',' v).map (fun s => trimQuotes (strTrim s))).filter (· ≠ "")

/-- Mutable state of the front-matter loop in `parse_skill_md`:
the metadata record, the `tags` accumulator vector and the `in_tags_list`
flag. -/
structure FMState where
  md : SkillMetadata := {}
  tagAcc : List String := []
  inTagsList : Bool := false
deriving DecidableEq, Repr

/-- Key/value handling at the bottom of the front-matter loop
(github.rs 448-464), reached once the tags-list block (if any) is exited. -/
def keyLineStep (st : FMState) (line : String) : FMState :=
  match splitOnce line ':' with
  | none => st
  | some (k, v) =>
    let key := strTrim k
    let value := trimQuotes (strTrim v)
    if key = "name" then { st with md := { st.md with name := some value } }
    else if key = "description" then { st with md := { st.md with description := some value } }
    else if key = "author" then { st with md := { st.md with author := some value } }
    else if key = "tags" then
      if value = "" then { st with inTagsList := true }
      else { st with tagAcc := st.tagAcc ++ parse_inline_tags value }
    else st

/-- One iteration of the front-matter loop of `parse_skill_md`
(github.rs 420-465). -/
def processLine (st : FMState) (rawLine : String) : FMState :=
  let line := strTrim rawLine
  if line = "" then st
  else if st.inTagsList && strStarts line "-" then
    let tag := trimQuotes (strTrim (trimStartChar '-' line))
    if tag = "" then st else { st with tagAcc := st.tagAcc ++ [tag] }
  else if st.inTagsList && !(strContains line ':') then st
  else keyLineStep { st with inTagsList := false } line

/-- Rust `extract_first_paragraph` (github.rs 496-506): the regex
`(?m)^[^#\n].*$` matches every (maximal, newline-free) line whose first
character is neither `#` nor a newline, i.e. every non-empty line not
starting with `#`; the first whose trimmed text is non-empty and longer
than 20 UTF-8 bytes (`text.len()` in Rust counts bytes, not characters)
is returned trimmed. -/
def extract_first_paragraph (content : String) : Option String :=
  (splitChar '\n' content).findSome? (fun line =>
    if line ≠ "" && !(strStarts line "#") then
      let text := strTrim line
      if text ≠ "" && 20 < text.utf8ByteSize then some text else none
    else none)

/-- The fallback-description search in the spec's words (§4.2) as amended
by the C8 counterexample: the first line, scanning top to bottom, that is
non-empty, does not start with `#`, and whose trimmed text is longer than
20 UTF-8 bytes (the spec says "characters", but the source tests
`text.len()`, a byte count), returned trimmed; `none` when no line
qualifies.  Compared against `extract_first_paragraph`, which follows the
source's regex loop. -/
def specFallbackDescription (text : String) : Option String :=
  ((splitChar '\n' text).find? (fun line =>
    line ≠ "" && !(strStarts line "#") && 20 < (strTrim line).utf8ByteSize)).map strTrim

/-- Rust `parse_skill_md` (github.rs 409-480). -/
def parse_skill_md (content : String) : SkillMetadata × Option String :=
  match stripPre content "---" with
  | some stripped =>
    match findIdxOfSublist "---".toList stripped.toList with
    | some e =>
      let frontmatter := strTake stripped e
      let fin := (rustLines frontmatter).foldl processLine {}
      let md :=
        if fin.tagAcc ≠ [] then { fin.md with tags := some fin.tagAcc } else fin.md
      let body := strDrop stripped (e + 3)
      (md, extract_first_paragraph body)
    | none => ({}, none)
  | none => ({}, extract_first_paragraph content)

/-! ## Classifier (`categorize_skill`, github.rs 509-551) -/

/-- Rendering of `format!("{:?}", tags)` for `tags : &Option<Vec<String>>`
(Rust `Debug` output; the tag strings occurring here need no escaping). -/
def debugFmtTags : Option (List String) → String
  | none => "None"
  | some l =>
    "Some([" ++ String.intercalate ", " (l.map (fun t => "\"" ++ t ++ "\"")) ++ "])"

/-- The lowercase haystack built at the top of `categorize_skill`. -/
def classifierText (name desc : String) (tags : Option (List String)) : String :=
  strLower (name ++ " " ++ desc ++ " " ++ debugFmtTags tags)

/-- Rust `categorize_skill` (github.rs 509-551). -/
def categorize_skill (name desc : String) (tags : Option (List String)) : SkillCategory :=
  let text := classifierText name desc tags
  if containsSub text "code" || containsSub text "develop" ||
     containsSub text "test" || containsSub text "git" then .development
  else if containsSub text "data" || containsSub text "csv" ||
     containsSub text "sql" || containsSub text "analy" then .dataCat
  else if containsSub text "writ" || containsSub text "article" ||
     containsSub text "content" || containsSub text "doc" then .writing
  else if containsSub text "business" || containsSub text "market" ||
     containsSub text "lead" || containsSub text "sales" then .business
  else if containsSub text "image" || containsSub text "video" ||
     containsSub text "creative" || containsSub text "design" then .creative
  else if containsSub text "productiv" || containsSub text "organiz" ||
     containsSub text "file" || containsSub text "automat" then .productivity
  else .other

/-- The keyword table of the spec (§4.3), in its stated priority order.
This definition follows the spec's words and is compared against
`categorize_skill` (which follows the source). -/
def keywordTable : List (SkillCategory × List String) :=
  [(.development, ["code", "develop", "test", "git"]),
   (.dataCat, ["data", "csv", "sql", "analy"]),
   (.writing, ["writ", "article", "content", "doc"]),
   (.business, ["business", "market", "lead", "sales"]),
   (.creative, ["image", "video", "creative", "design"]),
   (.productivity, ["productiv", "organiz", "file", "automat"])]

/-- First-match classification over `keywordTable`, following the spec's
words: test the keyword sets in priority order, first category whose set
matches wins, `Other` when none matches. -/
def classifySpec (name desc : String) (tags : Option (List String)) : SkillCategory :=
  let text := classifierText name desc tags
  match keywordTable.find? (fun p => p.2.any (fun k => containsSub text k)) with
  | some p => p.1
  | none => .other

/-! ## Remote Content Client (`GitHubService`, github.rs 62-244)

HTTP is abstracted as follows: a transport behaviour is a function
`net : Nat → Except String HttpResponse` giving, for each 0-based attempt
index, either a transport-level failure (the rendered `reqwest::Error`
message) or a response.  A response carries its status code and the
outcome of the body decodings the source may perform on it
(`response.json::<Vec<GitHubContent>>()`, `response.json::<GitHubContent>()`,
`response.bytes()`); each such outcome is an `Except` whose error is the
rendered decode-failure message, mapped to `GitHubError.network` by the
`?` operator in the source (the `#[from] reqwest::Error` conversion). -/

structure HttpResponse where
  status : Nat
  jsonVec : Except String (List GitHubContent)
  jsonOne : Except String GitHubContent
  bodyBytes : Except String (List Nat)
deriving Repr

/-- Events observable from one retried logical call: a sleep of a number of
milliseconds, or the dispatch of the HTTP attempt with the given 0-based
index. -/
inductive ReqEvent where
  | sleep (ms : Nat)
  | attempt (i : Nat)
deriving DecidableEq, Repr

/-- Result of `request_with_retry`: a transport-successful response, or the
last transport error wrapped as `GitHubError::Network`.  `noAttempts`
marks the `last_error.unwrap()` panic the source would hit if called with
`max_retries == 0`; every call site passes 3, so it is unreachable there. -/
inductive RetryResult (ρ : Type) where
  | success (r : ρ)
  | network (e : String)
  | noAttempts
deriving DecidableEq, Repr

/-- Loop body of `request_with_retry` (github.rs 63-93): `remaining` counts
the iterations left of `for attempt in 0..max_retries`, `attempt` is the
current index, `lastErr` the last transport error seen. -/
def requestGo (net : Nat → Except String HttpResponse) :
    Nat → Nat → Option String → List ReqEvent × RetryResult HttpResponse
  | 0, _, lastErr =>
    ([], match lastErr with | some e => .network e | none => .noAttempts)
  | r + 1, attempt, _ =>
    let pre : List ReqEvent := if 0 < attempt then [.sleep (500 * 2 ^ attempt)] else []
    match net attempt with
    | .ok resp => (pre ++ [.attempt attempt], .success resp)
    | .error e =>
      let rec_ := requestGo net r (attempt + 1) (some e)
      (pre ++ [.attempt attempt] ++ rec_.1, rec_.2)

/-- Rust `request_with_retry` (github.rs 63-93), returning the event trace
alongside the result. -/
def request_with_retry (net : Nat → Except String HttpResponse)
    (max_retries : Nat) : List ReqEvent × RetryResult HttpResponse :=
  requestGo net max_retries 0 none

/-- Rust `reqwest::StatusCode::is_success`. -/
def statusIsSuccess (status : Nat) : Bool := 200 ≤ status && status ≤ 299

/-- Response handling inside the `Ok` arm of `request_bytes_with_retry`
(github.rs 114-130): 403, 404 and other non-2xx statuses return
immediately (no retry); only then is the body read. -/
def request_bytes_handle (url : String) (resp : HttpResponse) :
    Except GitHubError (List Nat) :=
  if resp.status = 403 then .error .rateLimited
  else if resp.status = 404 then .error (.notFound url)
  else if !(statusIsSuccess resp.status) then
    .error (.parse ("Unexpected status " ++ toString resp.status ++ " for " ++ url))
  else
    match resp.bodyBytes with
    | .ok b => .ok b
    | .error e => .error (.network e)

/-- Loop body of `request_bytes_with_retry` (github.rs 95-139). -/
def requestBytesGo (net : Nat → Except String HttpResponse) (url : String) :
    Nat → Nat → Option String → List ReqEvent × Except GitHubError (List Nat)
  | 0, _, lastErr =>
    ([], .error (.network (match lastErr with | some e => e | none => "no attempts")))
  | r + 1, attempt, _ =>
    let pre : List ReqEvent := if 0 < attempt then [.sleep (500 * 2 ^ attempt)] else []
    match net attempt with
    | .ok resp => (pre ++ [.attempt attempt], request_bytes_handle url resp)
    | .error e =>
      let rec_ := requestBytesGo net url r (attempt + 1) (some e)
      (pre ++ [.attempt attempt] ++ rec_.1, rec_.2)

/-- Rust `request_bytes_with_retry` (github.rs 95-139). -/
def request_bytes_with_retry (net : Nat → Except String HttpResponse)
    (url : String) (max_retries : Nat) : List ReqEvent × Except GitHubError (List Nat) :=
  requestBytesGo net url max_retries 0 none

/-- Status/body handling of `fetch_contents` (github.rs 159-171), applied to
the transport-successful response returned by `request_with_retry`. -/
def fetch_contents_handle (path : String) (resp : HttpResponse) :
    Except GitHubError (List GitHubContent) :=
  if resp.status = 403 then .error .rateLimited
  else if resp.status = 404 then .error (.notFound path)
  else
    match resp.jsonVec with
    | .ok v => .ok v
    | .error e => .error (.network e)

/-- Status/body handling of `fetch_file` (github.rs 191-207).  The base64
engine and UTF-8 validation are the collaborators `decode` and `fromUtf8`
(their error strings surface as `Parse`). -/
def fetch_file_handle (decode : String → Except String (List Nat))
    (fromUtf8 : List Nat → Except String String)
    (path : String) (resp : HttpResponse) : Except GitHubError String :=
  if resp.status = 404 then .error (.notFound path)
  else
    match resp.jsonOne with
    | .error e => .error (.network e)
    | .ok content =>
      match content.content with
      | some encoded =>
        match decode (removeChar '\n' encoded) with
        | .error e => .error (.parse e)
        | .ok bytes =>
          match fromUtf8 bytes with
          | .error e => .error (.parse e)
          | .ok s => .ok s
      | none => .error (.parse "No content found")

/-- Status/body handling of `fetch_file_bytes` (github.rs 227-244);
`fetchUrl` is the nested `request_bytes_with_retry` call on the entry's
download URL. -/
def fetch_file_bytes_handle (decode : String → Except String (List Nat))
    (fetchUrl : String → Except GitHubError (List Nat))
    (path : String) (resp : HttpResponse) : Except GitHubError (List Nat) :=
  if resp.status = 404 then .error (.notFound path)
  else
    match resp.jsonOne with
    | .error e => .error (.network e)
    | .ok content =>
      match content.content with
      | some encoded =>
        match decode (removeChar '\n' encoded) with
        | .error e => .error (.parse e)
        | .ok bytes => .ok bytes
      | none =>
        match content.download_url with
        | some url => fetchUrl url
        | none => .error (.parse "No content found")

/-! ## Repository scanner (`scan_skills` / `parse_skill_directory`,
github.rs 291-405)

The remote repository is abstracted as a `Remote`: `listing p` is the
outcome of `fetch_contents` for directory path `p` (the client's retries
are exhausted inside the client, so the scanner only sees its final
result), and `fileText p` is the outcome of `fetch_file` for file path
`p`.  The scanner aborts on the first error, as the `?` operators do in
the source.  The breadth-first loop is given fuel: `scan_skills` in the
source terminates because a real repository tree is finite, and every
property proved below holds for every fuel value. -/

structure Remote where
  listing : String → Except GitHubError (List GitHubContent)
  fileText : String → Except GitHubError String

/-- Detection of a `SKILL.md` manifest among a directory's entries
(github.rs 314-316). -/
def hasSkillMd (contents : List GitHubContent) : Bool :=
  contents.any (fun item =>
    item.content_type = "file" && eqIgnoreAsciiCase item.name "SKILL.md")

/-- Path of the manifest inside a skill directory (github.rs 355-359). -/
def skillMdPath (dir_path : String) : String :=
  if dir_path = "" then "SKILL.md" else dir_path ++ "/SKILL.md"

/-- Subdirectory path built when enqueueing a child (github.rs 335-339). -/
def subdirPath (dir_path name : String) : String :=
  if dir_path = "" then name else dir_path ++ "/" ++ name

/-- Last path segment, mirroring `dir_path.rsplit('/').next().unwrap_or("skill")`
(github.rs 371). -/
def lastSegment (dir_path : String) : String :=
  (splitChar '/' dir_path).getLastD "skill"

/-- Pure part of `parse_skill_directory` (github.rs 348-405), applied to the
fetched manifest text `content`. -/
def parse_skill_directory (owner repo dir_path : String) (git_ref : Option String)
    (content : String) : Skill :=
  let pr := parse_skill_md content
  let metadata := pr.1
  let description := pr.2
  let folder_name := if dir_path = "" then repo else lastSegment dir_path
  let name := metadata.name.getD (replaceChar '-' ' ' folder_name)
  let desc := (metadata.description.or description).getD ("A skill from " ++ folder_name)
  let category := categorize_skill name desc metadata.tags
  let id :=
    if dir_path = "" then owner ++ "/" ++ repo
    else owner ++ "/" ++ repo ++ "/" ++ dir_path
  { id := id
    name := name
    description := desc
    repository := owner ++ "/" ++ repo
    git_ref := git_ref
    path := folder_name
    category := category
    readme := some content
    metadata := some metadata
    installed_at := none }

/-- Depth cap constant `MAX_DEPTH` (github.rs 305). -/
def MAX_DEPTH : Nat := 3

/-- Child queue entries produced for one dequeued directory
(github.rs 330-341). -/
def childEntries (contents : List GitHubContent) (dir_path : String) (depth : Nat) :
    List (String × Nat) :=
  (contents.filter (fun item => item.content_type = "dir")).map
    (fun item => (subdirPath dir_path item.name, depth + 1))

/-- The `while let Some((dir_path, depth)) = queue.pop_front()` loop of
`scan_skills` (github.rs 307-342).  Returns the scan outcome together
with the trace of `(path, depth)` pairs whose contents were requested
(one entry per `fetch_contents` call issued by the loop). -/
def scanLoop (r : Remote) (owner repo : String) (git_ref : Option String) :
    Nat → List (String × Nat) → List String →
    Except GitHubError (List Skill) × List (String × Nat)
  | 0, _, _ => (.ok [], [])
  | _ + 1, [], _ => (.ok [], [])
  | fuel + 1, (dir_path, depth) :: rest, visited =>
    if dir_path ∈ visited then scanLoop r owner repo git_ref fuel rest visited
    else
      match r.listing dir_path with
      | .error e => (.error e, [(dir_path, depth)])
      | .ok contents =>
        if hasSkillMd contents then
          match r.fileText (skillMdPath dir_path) with
          | .error e => (.error e, [(dir_path, depth)])
          | .ok txt =>
            let res := scanLoop r owner repo git_ref fuel rest (dir_path :: visited)
            (match res.1 with
             | .ok skills =>
               .ok (parse_skill_directory owner repo dir_path git_ref txt :: skills)
             | .error e => .error e,
             (dir_path, depth) :: res.2)
        else if MAX_DEPTH ≤ depth then
          let res := scanLoop r owner repo git_ref fuel rest (dir_path :: visited)
          (res.1, (dir_path, depth) :: res.2)
        else
          let res := scanLoop r owner repo git_ref fuel
            (rest ++ childEntries contents dir_path depth) (dir_path :: visited)
          (res.1, (dir_path, depth) :: res.2)

/-- Rust `scan_skills` (github.rs 292-345): seed the queue with the
slash-trimmed base path at depth 0 and run the loop with an empty
visited-set. -/
def scan_skills (r : Remote) (owner repo : String) (base_path : Option String)
    (git_ref : Option String) (fuel : Nat) :
    Except GitHubError (List Skill) × List (String × Nat) :=
  scanLoop r owner repo git_ref fuel [(trimChar '/' (base_path.getD ""), 0)] []

/-! ## Paths and the local skill store (`services/skill.rs`)

Unix path semantics as used by `std::path::Path` on the strings the
service handles: a leading `/` makes the path absolute, `/` separates
components, empty and `.` segments vanish (a leading `.` is kept as a
current-directory marker), and `..` is a parent-directory component.
Filesystem effects are recorded as a trace of operations on component
lists; `resolve` normalizes a component list the way the operating system
resolves it (POSIX: the parent of the root is the root). -/

inductive PathComponent where
  | rootDir
  | curDir
  | parentDir
  | normal (s : String)
deriving DecidableEq, Repr

/-- Rust `Path::components()` for Unix paths given as strings. -/
def parseComponents (s : String) : List PathComponent :=
  let segs := (splitChar '/' s).filter (fun t => t ≠ "" && t ≠ ".")
  let comps := segs.map (fun t => if t = ".." then PathComponent.parentDir else .normal t)
  if strStarts s "/" then .rootDir :: comps
  else if s = "." || strStarts s "./" then .curDir :: comps
  else comps

/-- Rust `Path::is_absolute()` on Unix. -/
def pathIsAbsolute (s : String) : Bool := strStarts s "/"

/-- Rust `PathBuf::join(rel)`: an absolute `rel` replaces the base path,
otherwise its components are appended. -/
def pathJoin (base : List PathComponent) (rel : String) : List PathComponent :=
  if pathIsAbsolute rel then parseComponents rel else base ++ parseComponents rel

/-- Absolute component list of the skills directory, whose segments
(`home/<user>/.claude/skills` in `get_skills_dir`) are the parameter
`root`. -/
def absOf (root : List String) : List PathComponent :=
  .rootDir :: root.map .normal

/-- Operating-system resolution of a component list against an accumulator
of already-resolved segments. -/
def resolve (acc : List String) : List PathComponent → List String
  | [] => acc
  | .rootDir :: rest => resolve [] rest
  | .curDir :: rest => resolve acc rest
  | .parentDir :: rest => resolve acc.dropLast rest
  | .normal s :: rest => resolve (acc ++ [s]) rest

/-- Rendering of a component list (Rust `to_string_lossy`). -/
def renderPath (ps : List PathComponent) : String :=
  String.intercalate "/" (ps.map (fun c =>
    match c with
    | .rootDir => ""
    | .curDir => "."
    | .parentDir => ".."
    | .normal s => s))

/-- Enum `SkillError` (`services/skill.rs`).  `ioInvalid` is the
`ErrorKind::InvalidInput` error built by the path validation in
`install_skill`; in this model the filesystem collaborators themselves do
not fail, so no other `Io` value arises. -/
inductive SkillError where
  | ioInvalid (msg : String)
  | notFound (name : String)
  | alreadyInstalled (name : String)
  | homeNotFound
deriving DecidableEq, Repr

/-- Filesystem operations issued by the skill service, in issue order. -/
inductive FsOp where
  | createDirAll (p : List PathComponent)
  | writeFile (p : List PathComponent) (content : List Nat)
  | setPerm (p : List PathComponent) (mode : Nat)
  | removeDirAll (p : List PathComponent)
  | readFile (p : List PathComponent)
deriving DecidableEq, Repr

/-- The validation predicate of `install_skill` (skill.rs 112-117):
reject a relative path that is absolute or contains a `..` component. -/
def isInvalidRelPath (p : String) : Bool :=
  pathIsAbsolute p || (parseComponents p).any (fun c => c = PathComponent.parentDir)

/-- The executable-bit heuristic of `install_skill` (skill.rs 133-144). -/
def isScriptPath (relative_path : String) : Bool :=
  let rel_str := replaceChar '\\' '/' relative_path
  (splitChar '/' rel_str).any (fun seg => seg = "scripts") ||
    strEnds rel_str ".sh" || strEnds rel_str ".command"

/-- The per-file loop of `install_skill` (skill.rs 111-145): validate the
relative path, create parent directories, write the file, and set the
executable bits on script files.  Returns the trace of filesystem
operations and the loop outcome. -/
def installLoop (skill_path : List PathComponent) :
    List (String × List Nat) → List FsOp × Except SkillError Unit
  | [] => ([], .ok ())
  | (relative_path, content) :: rest =>
    if isInvalidRelPath relative_path then
      ([], .error (.ioInvalid ("Invalid relative path: " ++ relative_path)))
    else
      let file_path := skill_path ++ parseComponents relative_path
      ([FsOp.createDirAll file_path.dropLast, FsOp.writeFile file_path content] ++
         (if isScriptPath relative_path then [FsOp.setPerm file_path 493] else []) ++
         (installLoop skill_path rest).1,
       (installLoop skill_path rest).2)

/-- Rust `SkillService::install_skill` (skill.rs 96-148).  `root` is the
segment list of the skills directory and `pathExists` the state of the
`exists` collaborator at entry. -/
def install_skill (root : List String) (pathExists : List PathComponent → Bool)
    (skill_name : String) (files : List (String × List Nat)) :
    List FsOp × Except SkillError String :=
  let skill_path := pathJoin (absOf root) skill_name
  if pathExists skill_path then ([], .error (.alreadyInstalled skill_name))
  else
    let body := installLoop skill_path files
    (FsOp.createDirAll skill_path :: body.1,
     match body.2 with
     | .ok _ => .ok (renderPath skill_path)
     | .error e => .error e)

/-- Rust `SkillService::uninstall_skill` (skill.rs 151-161): join the
caller-supplied name onto the skills directory and remove recursively;
no validation is applied to the name. -/
def uninstall_skill (root : List String) (pathExists : List PathComponent → Bool)
    (skill_name : String) : List FsOp × Except SkillError Unit :=
  let skill_path := pathJoin (absOf root) skill_name
  if pathExists skill_path then ([FsOp.removeDirAll skill_path], .ok ())
  else ([], .error (.notFound skill_name))

/-- Rust `SkillService::get_skill_content` (skill.rs 164-174): join the
caller-supplied name then `SKILL.md` onto the skills directory and read;
no validation is applied to the name.  `readToString` is the filesystem
read collaborator. -/
def get_skill_content (root : List String) (pathExists : List PathComponent → Bool)
    (readToString : List PathComponent → String) (skill_name : String) :
    List FsOp × Except SkillError String :=
  let skill_path := pathJoin (pathJoin (absOf root) skill_name) "SKILL.md"
  if pathExists skill_path then ([FsOp.readFile skill_path], .ok (readToString skill_path))
  else ([], .error (.notFound skill_name))

/-! ## Concrete fixtures used by counterexamples and witnesses -/

/-- A transport behaviour in which every attempt fails at transport level. -/
def netAllFail : Nat → Except String HttpResponse := fun _ => .error "connect timeout"

/-- A 403 response whose body, as GitHub sends for rate-limit errors, is a
JSON object that does not deserialize into the content schema. -/
def resp403 : HttpResponse :=
  { status := 403
    jsonVec := .error "error decoding response body"
    jsonOne := .error "error decoding response body"
    bodyBytes := .error "error decoding response body" }

/-- Base64 and UTF-8 collaborators that always succeed (their outcome is
irrelevant to the status-mapping facts below). -/
def decodeOk : String → Except String (List Nat) := fun _ => .ok []

def utf8Ok : List Nat → Except String String := fun _ => .ok ""

/-- A remote tree whose only manifest sits at depth 4 below the scan base:
`a/b/c/d/SKILL.md`. -/
def demoDeepRemote : Remote where
  listing := fun p =>
    if p = "" then .ok [⟨"a", "a", "dir", none, none⟩]
    else if p = "a" then .ok [⟨"b", "a/b", "dir", none, none⟩]
    else if p = "a/b" then .ok [⟨"c", "a/b/c", "dir", none, none⟩]
    else if p = "a/b/c" then .ok [⟨"d", "a/b/c/d", "dir", none, none⟩]
    else if p = "a/b/c/d" then .ok [⟨"SKILL.md", "a/b/c/d/SKILL.md", "file", none, none⟩]
    else .ok []
  fileText := fun _ => .ok ""

/-- A remote tree with a manifest directly at the repository root. -/
def demoRootRemote : Remote where
  listing := fun p =>
    if p = "" then .ok [⟨"SKILL.md", "SKILL.md", "file", none, none⟩] else .ok []
  fileText := fun _ => .ok ""

/-- Concrete skills-directory segments used by filesystem fixtures. -/
def demoRoot : List String := ["home", "user", ".claude", "skills"]

/-- Number of HTTP dispatches in a retry-event trace. -/
def countAttempts (evs : List ReqEvent) : Nat :=
  (evs.filter (fun e => match e with | .attempt _ => true | .sleep _ => false)).length

/-! ## Claim C9: classifier priority order -/

/-- C9: `categorize_skill` concatenates name, description and the debug
rendering of the optional tags into one lowercase string and tests the
fixed keyword sets in the fixed priority order Development, Data, Writing,
Business, Creative, Productivity, returning the first category whose
keyword set matches and Other when none matches (it coincides with the
first-match evaluation of `keywordTable`); in particular any input whose
combined text contains both "code" and "market" is classified as
Development. -/
theorem C9_classify_first_match :
    (∀ name desc tags, categorize_skill name desc tags = classifySpec name desc tags) ∧
    (∀ name desc tags,
      containsSub (classifierText name desc tags) "code" = true →
      containsSub (classifierText name desc tags) "market" = true →
      categorize_skill name desc tags = SkillCategory.development) := by
  constructor
  · intro name desc tags
    unfold categorize_skill classifySpec keywordTable
    simp only [List.find?, List.any_cons, List.any_nil, Bool.or_false, Bool.or_assoc]
    generalize (classifierText name desc tags) = t
    generalize (containsSub t "code" || (containsSub t "develop" ||
      (containsSub t "test" || containsSub t "git"))) = c1
    generalize (containsSub t "data" || (containsSub t "csv" ||
      (containsSub t "sql" || containsSub t "analy"))) = c2
    generalize (containsSub t "writ" || (containsSub t "article" ||
      (containsSub t "content" || containsSub t "doc"))) = c3
    generalize (containsSub t "business" || (containsSub t "market" ||
      (containsSub t "lead" || containsSub t "sales"))) = c4
    generalize (containsSub t "image" || (containsSub t "video" ||
      (containsSub t "creative" || containsSub t "design"))) = c5
    generalize (containsSub t "productiv" || (containsSub t "organiz" ||
      (containsSub t "file" || containsSub t "automat"))) = c6
    cases c1 <;> cases c2 <;> cases c3 <;> cases c4 <;> cases c5 <;> cases c6 <;> rfl
  · intro name desc tags h1 _h2
    unfold categorize_skill
    simp [h1]

/-- Witness for C9, at a concrete input containing both "code" and
"market". -/
theorem C9_classify_first_match_witness :
    containsSub (classifierText "Code Helper" "market analysis" none) "code" = true ∧
    containsSub (classifierText "Code Helper" "market analysis" none) "market" = true ∧
    categorize_skill "Code Helper" "market analysis" none = SkillCategory.development :=
  ⟨by decide, by decide,
   C9_classify_first_match.2 "Code Helper" "market analysis" none (by decide) (by decide)⟩

/-! ## Claim C6: retry attempt count and backoff schedule -/

/-- C6 counterexample: with every attempt failing at transport level, the
trace of a 3-attempt call sleeps 1000 ms before the second attempt and
2000 ms before the third — not the 500 ms and 1000 ms the claim states
(`500 * (1 << attempt)` with the 0-based loop index is `500 * 2^n`, not
`500 * 2^(n-1)`, before the (n+1)-st attempt). -/
theorem C6_counterexample :
    (request_with_retry netAllFail 3).1 =
      [ReqEvent.attempt 0, ReqEvent.sleep 1000, ReqEvent.attempt 1,
       ReqEvent.sleep 2000, ReqEvent.attempt 2] ∧
    (1000 : Nat) ≠ 500 ∧ (2000 : Nat) ≠ 1000 :=
  ⟨rfl, by decide, by decide⟩

/-- C6 amended: each logical call makes at most 3 HTTP attempts; after a
transport-level failure the wait before retry attempt n (n = 2, 3) is
1000 ms before the second attempt and 2000 ms before the third
(500 ms * 2^(n-1)); the final attempt's transport error is surfaced.
Both retried loops (`request_with_retry` and `request_bytes_with_retry`)
behave this way. -/
theorem C6_amended_retry_schedule :
    (∀ net, countAttempts (request_with_retry net 3).1 ≤ 3) ∧
    (∀ net url, countAttempts (request_bytes_with_retry net url 3).1 ≤ 3) ∧
    (∀ net e0 e1 e2, net 0 = .error e0 → net 1 = .error e1 → net 2 = .error e2 →
      request_with_retry net 3 =
        ([ReqEvent.attempt 0, ReqEvent.sleep 1000, ReqEvent.attempt 1,
          ReqEvent.sleep 2000, ReqEvent.attempt 2], .network e2)) ∧
    (∀ net url e0 e1 e2, net 0 = .error e0 → net 1 = .error e1 → net 2 = .error e2 →
      request_bytes_with_retry net url 3 =
        ([ReqEvent.attempt 0, ReqEvent.sleep 1000, ReqEvent.attempt 1,
          ReqEvent.sleep 2000, ReqEvent.attempt 2], .error (.network e2))) := by
  refine ⟨?_, ?_, ?_, ?_⟩
  · intro net
    unfold request_with_retry
    rcases h0 : net 0 with e0 | r0
    · rcases h1 : net 1 with e1 | r1
      · rcases h2 : net 2 with e2 | r2 <;> simp [requestGo, h0, h1, h2, countAttempts]
      · simp [requestGo, h0, h1, countAttempts]
    · simp [requestGo, h0, countAttempts]
  · intro net url
    unfold request_bytes_with_retry
    rcases h0 : net 0 with e0 | r0
    · rcases h1 : net 1 with e1 | r1
      · rcases h2 : net 2 with e2 | r2 <;> simp [requestBytesGo, h0, h1, h2, countAttempts]
      · simp [requestBytesGo, h0, h1, countAttempts]
    · simp [requestBytesGo, h0, countAttempts]
  · intro net e0 e1 e2 h0 h1 h2
    unfold request_with_retry
    simp [requestGo, h0, h1, h2]
  · intro net url e0 e1 e2 h0 h1 h2
    unfold request_bytes_with_retry
    simp [requestBytesGo, h0, h1, h2]

/-- Witness for C6 amended, at the all-failing transport behaviour. -/
theorem C6_amended_retry_schedule_witness :
    request_with_retry netAllFail 3 =
      ([ReqEvent.attempt 0, ReqEvent.sleep 1000, ReqEvent.attempt 1,
        ReqEvent.sleep 2000, ReqEvent.attempt 2], .network "connect timeout") :=
  C6_amended_retry_schedule.2.2.1 netAllFail "connect timeout" "connect timeout"
    "connect timeout" rfl rfl rfl

/-! ## Claim C2: HTTP status mapping -/

/-- C2 counterexample: the manifest-text fetch (`fetch_file`) checks only
status 404; on a 403 response its JSON decoding runs and the decode
failure surfaces as `Network`, not as the distinct `RateLimited` error
the claim states for every client call. -/
theorem C2_counterexample :
    fetch_file_handle decodeOk utf8Ok "p" resp403 =
      .error (.network "error decoding response body") ∧
    GitHubError.network "error decoding response body" ≠ GitHubError.rateLimited :=
  ⟨rfl, by decide⟩

/-- C2 amended: the directory listing maps 403 to `RateLimited` and 404 to
`NotFound`; the direct-URL fetch maps 403 to `RateLimited`, 404 to
`NotFound` and any other non-2xx status to a `Parse` failure; the
manifest-text and file-bytes fetches map only 404 to `NotFound` and feed
every other status (403 included) to JSON decoding, whose failure
surfaces as `Network` — the manifest-text fetch can never yield
`RateLimited`.  None of these status-derived outcomes is retried: the
retry loops return the first transport-successful response regardless of
its HTTP status. -/
theorem C2_amended_status_mapping :
    (∀ path resp, resp.status = 403 →
      fetch_contents_handle path resp = .error .rateLimited) ∧
    (∀ path resp, resp.status = 404 →
      fetch_contents_handle path resp = .error (.notFound path)) ∧
    (∀ url resp, resp.status = 403 →
      request_bytes_handle url resp = .error .rateLimited) ∧
    (∀ url resp, resp.status = 404 →
      request_bytes_handle url resp = .error (.notFound url)) ∧
    (∀ url resp, resp.status ≠ 403 → resp.status ≠ 404 →
      statusIsSuccess resp.status = false →
      ∃ m, request_bytes_handle url resp = .error (.parse m)) ∧
    (∀ decode fromUtf8 path resp, resp.status = 404 →
      fetch_file_handle decode fromUtf8 path resp = .error (.notFound path)) ∧
    (∀ decode fromUtf8 path resp,
      fetch_file_handle decode fromUtf8 path resp ≠ .error .rateLimited) ∧
    (∀ decode fetchUrl path resp, resp.status = 404 →
      fetch_file_bytes_handle decode fetchUrl path resp = .error (.notFound path)) ∧
    (∀ decode fetchUrl path resp e, resp.status ≠ 404 → resp.jsonOne = .error e →
      fetch_file_bytes_handle decode fetchUrl path resp = .error (.network e)) ∧
    (∀ net resp, net 0 = .ok resp →
      request_with_retry net 3 = ([ReqEvent.attempt 0], .success resp)) ∧
    (∀ net url resp, net 0 = .ok resp →
      request_bytes_with_retry net url 3 =
        ([ReqEvent.attempt 0], request_bytes_handle url resp)) := by
  refine ⟨?_, ?_, ?_, ?_, ?_, ?_, ?_, ?_, ?_, ?_, ?_⟩
  · intro path resp h; simp [fetch_contents_handle, h]
  · intro path resp h; simp [fetch_contents_handle, h]
  · intro url resp h; simp [request_bytes_handle, h]
  · intro url resp h; simp [request_bytes_handle, h]
  · intro url resp h403 h404 hns
    refine ⟨"Unexpected status " ++ toString resp.status ++ " for " ++ url, ?_⟩
    simp [request_bytes_handle, h403, h404, hns]
  · intro decode fromUtf8 path resp h; simp [fetch_file_handle, h]
  · intro decode fromUtf8 path resp
    unfold fetch_file_handle
    split
    · simp
    · rcases hj : resp.jsonOne with e | content
      · simp [hj]
      · rcases hc : content.content with _ | encoded
        · simp [hj, hc]
        · rcases hd : decode (removeChar '\n' encoded) with e | bytes
          · simp [hj, hc, hd]
          · rcases hu : fromUtf8 bytes with e | s <;> simp [hj, hc, hd, hu]
  · intro decode fetchUrl path resp h; simp [fetch_file_bytes_handle, h]
  · intro decode fetchUrl path resp e h404 hj
    simp [fetch_file_bytes_handle, h404, hj]
  · intro net resp h0
    unfold request_with_retry
    simp [requestGo, h0]
  · intro net url resp h0
    unfold request_bytes_with_retry
    simp [requestBytesGo, h0]

/-- Witness for C2 amended: the directory listing reports the concrete 403
response as `RateLimited`. -/
theorem C2_amended_status_mapping_witness :
    fetch_contents_handle "some/path" resp403 = .error .rateLimited :=
  C2_amended_status_mapping.1 "some/path" resp403 rfl

/-! ## Claim C7: end of a block-form tags list -/

/-- A character that does not occur in a list cannot be split on. -/
theorem splitOnceList_none (c : Char) :
    ∀ l : List Char, l.contains c = false → splitOnceList c l = none := by
  intro l
  induction l with
  | nil => intro _; rfl
  | cons x xs ih =>
    intro h
    simp only [List.contains_cons, Bool.or_eq_false_iff, beq_eq_false_iff_ne] at h
    have hx : ¬x = c := fun hh => h.1 hh.symm
    simp [splitOnceList, hx, ih h.2]

/-- `split_once` finds nothing when the string does not contain the
separator. -/
theorem splitOnce_none (s : String) (c : Char) (h : strContains s c = false) :
    splitOnce s c = none := by
  unfold splitOnce
  rw [splitOnceList_none c s.toList h]
  rfl

/-- Record update with an already-false flag is the identity. -/
theorem fmstate_update_self (st : FMState) (h : st.inTagsList = false) :
    { st with inTagsList := false } = st := by
  cases st
  simp only at h
  simp [h]

/-- C7 counterexample: in the front-matter block
`tags:` / `plain` / `- item`, the plain scalar line (no `-` prefix, no
`:`) does not end block mode — it is skipped with the flag still set —
so the following `- item` line IS collected as a tag, contrary to the
claim. -/
theorem C7_counterexample :
    (parse_skill_md "---\ntags:\nplain\n- item\n---\nbody").1.tags = some ["item"] ∧
    "item" ∈ ((parse_skill_md "---\ntags:\nplain\n- item\n---\nbody").1.tags.getD []) :=
  ⟨rfl, by decide⟩

/-- C7 amended: while parsing a block-form tags list, a line with no `-`
prefix and no `:` (a plain scalar) is skipped and block mode continues;
block mode ends only at a line containing `:` without a `-` prefix,
which is handed to key parsing (and changes nothing unless the key is
recognized); a `- item` line encountered outside block mode is not
collected as a tag. -/
theorem C7_amended_block_mode :
    (∀ st line, st.inTagsList = true → strStarts (strTrim line) "-" = false →
      strContains (strTrim line) ':' = false →
      processLine st line = st) ∧
    (∀ st line, strTrim line ≠ "" → strStarts (strTrim line) "-" = false →
      strContains (strTrim line) ':' = true →
      processLine st line = keyLineStep { st with inTagsList := false } (strTrim line)) ∧
    (∀ st k v line, splitOnce line ':' = some (k, v) →
      strTrim k ≠ "name" → strTrim k ≠ "description" → strTrim k ≠ "author" →
      strTrim k ≠ "tags" → keyLineStep st line = st) ∧
    (∀ st line, st.inTagsList = false → strStarts (strTrim line) "-" = true →
      strContains (strTrim line) ':' = false →
      processLine st line = st) := by
  refine ⟨?_, ?_, ?_, ?_⟩
  · intro st line hin hs hc
    unfold processLine
    by_cases he : strTrim line = ""
    · simp [he]
    · simp [he, hin, hs, hc]
  · intro st line he hs hc
    unfold processLine
    simp [he, hs, hc]
  · intro st k v line hsplit h1 h2 h3 h4
    unfold keyLineStep
    rw [hsplit]
    simp [h1, h2, h3, h4]
  · intro st line hin hs hc
    have he : strTrim line ≠ "" := by
      intro he
      rw [he] at hs
      exact absurd hs (by decide)
    unfold processLine
    simp only [he, if_false, hin, Bool.false_and, Bool.and_self]
    rw [if_neg (by simp), if_neg (by simp)]
    unfold keyLineStep
    rw [splitOnce_none _ _ hc, fmstate_update_self st hin]

/-- Witness for C7 amended: a plain scalar line leaves a tags-block state
unchanged (flag still set), and a dash line outside a tags block changes
nothing. -/
theorem C7_amended_block_mode_witness :
    processLine { md := {}, tagAcc := ["x"], inTagsList := true } "plain" =
      { md := {}, tagAcc := ["x"], inTagsList := true } ∧
    processLine { md := {}, tagAcc := [], inTagsList := false } "- item" =
      { md := {}, tagAcc := [], inTagsList := false } :=
  ⟨C7_amended_block_mode.1 { md := {}, tagAcc := ["x"], inTagsList := true } "plain"
      rfl (by decide) (by decide),
   C7_amended_block_mode.2.2.2 { md := {}, tagAcc := [], inTagsList := false } "- item"
      rfl (by decide) (by decide)⟩

/-! ## Claim C8: description fallback -/

/-- Bridge between an option-valued search and a predicate search followed
by a projection. -/
theorem findSome?_as_find? {α β : Type} (f : α → Option β) (p : α → Bool) (g : α → β)
    (hf : ∀ a, f a = if p a then some (g a) else none) :
    ∀ l : List α, l.findSome? f = (l.find? p).map g := by
  intro l
  induction l with
  | nil => simp
  | cons a l ih =>
    rw [List.findSome?_cons, List.find?_cons, hf a]
    by_cases hp : p a = true
    · simp [hp]
    · rw [Bool.not_eq_true] at hp
      simp [hp, ih]

/-- The source's regex-based first-paragraph search coincides with the
spec's "first qualifying line" description. -/
theorem extract_eq_spec (text : String) :
    extract_first_paragraph text = specFallbackDescription text := by
  unfold extract_first_paragraph specFallbackDescription
  refine findSome?_as_find? _ _ strTrim ?_ (splitChar '\n' text)
  intro a
  by_cases h1 : a = ""
  · simp [h1]
  · by_cases h2 : strStarts a "#" = true
    · simp [h1, h2]
    · rw [Bool.not_eq_true] at h2
      by_cases h3 : 20 < (strTrim a).utf8ByteSize
      · have hne : strTrim a ≠ "" := by
          intro hh
          rw [hh] at h3
          exact absurd h3 (by decide)
        simp [h1, h2, h3, hne]
      · simp [h1, h2, h3]

/-- C8 counterexample: the source tests `text.len() > 20`, a UTF-8 BYTE
count, not the character count the claim states.  The line
`"这是一个代码审查技能"` has 10 characters but 30 bytes: the program (and
the faithful embedding) returns it as the fallback description, while
the claim — no line longer than 20 characters exists — says the result
has no description. -/
theorem C8_counterexample :
    extract_first_paragraph "这是一个代码审查技能" = some "这是一个代码审查技能" ∧
    (parse_skill_md "这是一个代码审查技能").2 = some "这是一个代码审查技能" ∧
    ("这是一个代码审查技能" : String).length = 10 ∧
    ¬(20 < ("这是一个代码审查技能" : String).length) ∧
    ("这是一个代码审查技能" : String).utf8ByteSize = 30 :=
  ⟨rfl, rfl, rfl, by decide, rfl⟩

/-- C8 amended: when there is no front-matter, the description component
of `parse_skill_md` is the first line of the whole text that is
non-empty, does not start with `#` and is longer than 20 UTF-8 BYTES —
not characters — (scanned top to bottom); with front-matter, it is that
search over the body after the closing delimiter; when front-matter
yields no `description`, the skill's description falls back to this
component (or the generated default); and when no line qualifies the
result is simply `none` — `parse_skill_md` is total, so this is not an
error. -/
theorem C8_description_fallback :
    (∀ text, extract_first_paragraph text = specFallbackDescription text) ∧
    (∀ content, stripPre content "---" = none →
      (parse_skill_md content).2 = specFallbackDescription content) ∧
    (∀ content stripped e, stripPre content "---" = some stripped →
      findIdxOfSublist ("---".toList) stripped.toList = some e →
      (parse_skill_md content).2 = specFallbackDescription (strDrop stripped (e + 3))) ∧
    (∀ owner repo dir_path g content,
      (parse_skill_md content).1.description = none →
      (parse_skill_directory owner repo dir_path g content).description =
        ((parse_skill_md content).2.getD ("A skill from " ++
          (if dir_path = "" then repo else lastSegment dir_path)))) ∧
    (∀ text, (∀ line ∈ splitChar '\n' text,
        (line ≠ "" && !(strStarts line "#") && 20 < (strTrim line).utf8ByteSize) = false) →
      specFallbackDescription text = none) := by
  refine ⟨extract_eq_spec, ?_, ?_, ?_, ?_⟩
  · intro content h
    unfold parse_skill_md
    rw [h]
    exact extract_eq_spec content
  · intro content stripped e h1 h2
    unfold parse_skill_md
    simp only [h1, h2]
    exact extract_eq_spec (strDrop stripped (e + 3))
  · intro owner repo dir_path g content h
    unfold parse_skill_directory
    simp [h]
  · intro text h
    unfold specFallbackDescription
    rw [List.find?_eq_none.mpr (fun x hx => by simpa using h x hx)]
    rfl

/-- Witness for C8, at a text with no front-matter whose first two lines
are a short line and a heading. -/
theorem C8_description_fallback_witness :
    stripPre "short\n# Heading\nA sufficiently long description line.\n" "---" = none ∧
    (parse_skill_md "short\n# Heading\nA sufficiently long description line.\n").2 =
      specFallbackDescription "short\n# Heading\nA sufficiently long description line.\n" :=
  ⟨by decide,
   C8_description_fallback.2.1 "short\n# Heading\nA sufficiently long description line.\n"
     (by decide)⟩

/-! ## Scanner invariants (claims C3, C4, C5) -/

/-- Every directory the scan loop lists is at the depth its queue entry
carries, and queue entries never exceed `MAX_DEPTH`: children are only
enqueued from directories at depth strictly below `MAX_DEPTH`. -/
theorem scanLoop_depth_le (r : Remote) (owner repo : String) (g : Option String) :
    ∀ fuel queue visited, (∀ q ∈ queue, q.2 ≤ MAX_DEPTH) →
      ∀ pd ∈ (scanLoop r owner repo g fuel queue visited).2, pd.2 ≤ MAX_DEPTH := by
  intro fuel
  induction fuel with
  | zero =>
    intro queue visited hq pd hpd
    simp [scanLoop] at hpd
  | succ n ih =>
    intro queue visited hq pd hpd
    match queue with
    | [] => simp [scanLoop] at hpd
    | (dir_path, depth) :: rest =>
      have hqr : ∀ q ∈ rest, q.2 ≤ MAX_DEPTH :=
        fun q hq2 => hq q (List.mem_cons_of_mem _ hq2)
      have hqh : depth ≤ MAX_DEPTH := hq (dir_path, depth) (List.mem_cons_self _ _)
      by_cases hv : dir_path ∈ visited
      · rw [scanLoop, if_pos hv] at hpd
        exact ih rest visited hqr pd hpd
      · rw [scanLoop, if_neg hv] at hpd
        cases hl : r.listing dir_path with
        | error e =>
          rw [hl] at hpd
          simp at hpd
          simp [hpd, hqh]
        | ok contents =>
          rw [hl] at hpd
          cases hs : hasSkillMd contents with
          | true =>
            simp only [hs, if_true] at hpd
            cases ht : r.fileText (skillMdPath dir_path) with
            | error e =>
              rw [ht] at hpd
              simp at hpd
              simp [hpd, hqh]
            | ok txt =>
              rw [ht] at hpd
              simp only [List.mem_cons] at hpd
              rcases hpd with h | h
              · simp [h, hqh]
              · exact ih rest (dir_path :: visited) hqr pd h
          | false =>
            simp only [hs, Bool.false_eq_true, if_false] at hpd
            by_cases hd : MAX_DEPTH ≤ depth
            · rw [if_pos hd] at hpd
              simp only [List.mem_cons] at hpd
              rcases hpd with h | h
              · simp [h, hqh]
              · exact ih rest (dir_path :: visited) hqr pd h
            · rw [if_neg hd] at hpd
              simp only [List.mem_cons] at hpd
              rcases hpd with h | h
              · simp [h, hqh]
              · refine ih _ (dir_path :: visited) ?_ pd h
                intro q hqq
                rcases List.mem_append.mp hqq with h2 | h2
                · exact hqr q h2
                · simp only [childEntries, List.mem_map, List.mem_filter] at h2
                  rcases h2 with ⟨item, _, hq2⟩
                  have hq3 : q.2 = depth + 1 := by rw [← hq2]
                  omega

/-- The listing trace of the scan loop never mentions a directory path
twice, nor one already in the visited set. -/
theorem scanLoop_trace_fresh (r : Remote) (owner repo : String) (g : Option String) :
    ∀ fuel queue visited,
      ((scanLoop r owner repo g fuel queue visited).2.map Prod.fst).Nodup ∧
      ∀ x ∈ (scanLoop r owner repo g fuel queue visited).2.map Prod.fst, x ∉ visited := by
  intro fuel
  induction fuel with
  | zero => intro queue visited; simp [scanLoop]
  | succ n ih =>
    intro queue visited
    match queue with
    | [] => simp [scanLoop]
    | (dir_path, depth) :: rest =>
      by_cases hv : dir_path ∈ visited
      · rw [scanLoop, if_pos hv]
        exact ih rest visited
      · rw [scanLoop, if_neg hv]
        cases hl : r.listing dir_path with
        | error e => simp [hl, hv]
        | ok contents =>
          simp only [hl]
          cases hs : hasSkillMd contents with
          | true =>
            simp only [hs, if_true]
            cases ht : r.fileText (skillMdPath dir_path) with
            | error e => simp [ht, hv]
            | ok txt =>
              simp only [ht]
              obtain ⟨ihn, ihf⟩ := ih rest (dir_path :: visited)
              constructor
              · simp only [List.map_cons, List.nodup_cons]
                exact ⟨fun hmem => (ihf _ hmem) (List.mem_cons_self _ _), ihn⟩
              · intro x hx
                simp only [List.map_cons, List.mem_cons] at hx
                rcases hx with h | h
                · simpa [h] using hv
                · exact fun hxv => (ihf x h) (List.mem_cons_of_mem _ hxv)
          | false =>
            simp only [hs, Bool.false_eq_true, if_false]
            by_cases hd : MAX_DEPTH ≤ depth
            · rw [if_pos hd]
              obtain ⟨ihn, ihf⟩ := ih rest (dir_path :: visited)
              constructor
              · simp only [List.map_cons, List.nodup_cons]
                exact ⟨fun hmem => (ihf _ hmem) (List.mem_cons_self _ _), ihn⟩
              · intro x hx
                simp only [List.map_cons, List.mem_cons] at hx
                rcases hx with h | h
                · simpa [h] using hv
                · exact fun hxv => (ihf x h) (List.mem_cons_of_mem _ hxv)
            · rw [if_neg hd]
              obtain ⟨ihn, ihf⟩ :=
                ih (rest ++ childEntries contents dir_path depth) (dir_path :: visited)
              constructor
              · simp only [List.map_cons, List.nodup_cons]
                exact ⟨fun hmem => (ihf _ hmem) (List.mem_cons_self _ _), ihn⟩
              · intro x hx
                simp only [List.map_cons, List.mem_cons] at hx
                rcases hx with h | h
                · simpa [h] using hv
                · exact fun hxv => (ihf x h) (List.mem_cons_of_mem _ hxv)

/-- Every skill a successful scan returns was built by
`parse_skill_directory` from some listed directory whose manifest text the
remote supplied. -/
theorem scanLoop_skills_from (r : Remote) (owner repo : String) (g : Option String) :
    ∀ fuel queue visited skills,
      (scanLoop r owner repo g fuel queue visited).1 = .ok skills →
      ∀ s ∈ skills, ∃ dir txt, r.fileText (skillMdPath dir) = .ok txt ∧
        s = parse_skill_directory owner repo dir g txt := by
  intro fuel
  induction fuel with
  | zero =>
    intro queue visited skills hok s hs
    rw [scanLoop] at hok
    injection hok with h
    subst h
    simp at hs
  | succ n ih =>
    intro queue visited skills hok s hs
    match queue with
    | [] =>
      rw [scanLoop] at hok
      injection hok with h
      subst h
      simp at hs
    | (dir_path, depth) :: rest =>
      by_cases hv : dir_path ∈ visited
      · rw [scanLoop, if_pos hv] at hok
        exact ih rest visited skills hok s hs
      · rw [scanLoop, if_neg hv] at hok
        cases hl : r.listing dir_path with
        | error e =>
          rw [hl] at hok
          simp at hok
        | ok contents =>
          rw [hl] at hok
          cases hsk : hasSkillMd contents with
          | true =>
            simp only [hsk, if_true] at hok
            cases ht : r.fileText (skillMdPath dir_path) with
            | error e =>
              rw [ht] at hok
              simp at hok
            | ok txt =>
              simp only [ht] at hok
              cases hrec : (scanLoop r owner repo g n rest (dir_path :: visited)).1 with
              | error e =>
                rw [hrec] at hok
                simp at hok
              | ok skills0 =>
                rw [hrec] at hok
                simp only [] at hok
                injection hok with h
                subst h
                rcases List.mem_cons.mp hs with h | h
                · exact ⟨dir_path, txt, ht, h⟩
                · exact ih rest (dir_path :: visited) skills0 hrec s h
          | false =>
            simp only [hsk, Bool.false_eq_true, if_false] at hok
            by_cases hd : MAX_DEPTH ≤ depth
            · rw [if_pos hd] at hok
              exact ih rest (dir_path :: visited) skills hok s hs
            · rw [if_neg hd] at hok
              exact ih (rest ++ childEntries contents dir_path depth)
                (dir_path :: visited) skills hok s hs

/-! ## Claim C5: no directory listed twice -/

/-- C5: within one scan, no normalized directory path is ever listed twice:
for every remote tree (including ones whose listings cause duplicate
enqueues), the trace of directory paths whose contents were requested has
no duplicates — a dequeued path already in the visited set is skipped
without re-listing. -/
theorem C5_no_directory_listed_twice :
    ∀ r owner repo base_path git_ref fuel,
      ((scan_skills r owner repo base_path git_ref fuel).2.map Prod.fst).Nodup :=
  fun r o p b g fuel =>
    (scanLoop_trace_fresh r o p g fuel [(trimChar '/' (b.getD ""), 0)] []).1

/-! ## Claim C4: depth pruning -/

/-- C4: subdirectories are enqueued only from directories at depth strictly
below `MAX_DEPTH = 3` (children at depth + 1), so every listed directory
is at depth at most 3 and nothing deeper is ever listed; in the concrete
tree whose only manifest sits at `a/b/c/d` (depth 4), the scan returns no
skills and no error — the depth-3 directory `a/b/c` is listed and then
pruned, and `a/b/c/d` is never listed. -/
theorem C4_depth_pruning :
    (∀ r owner repo base_path git_ref fuel,
      ∀ pd ∈ (scan_skills r owner repo base_path git_ref fuel).2, pd.2 ≤ MAX_DEPTH) ∧
    ((scan_skills demoDeepRemote "o" "r" none none 10).1 = .ok [] ∧
     (scan_skills demoDeepRemote "o" "r" none none 10).2 =
       [("", 0), ("a", 1), ("a/b", 2), ("a/b/c", 3)] ∧
     "a/b/c/d" ∉ (scan_skills demoDeepRemote "o" "r" none none 10).2.map Prod.fst) := by
  constructor
  · intro r o p b g fuel pd hpd
    refine scanLoop_depth_le r o p g fuel [(trimChar '/' (b.getD ""), 0)] [] ?_ pd hpd
    intro q hq
    simp at hq
    rw [hq]
    exact Nat.zero_le _
  · exact ⟨rfl, rfl, by decide⟩

/-- Witness for C4: the depth-3 directory of the concrete tree is listed,
at a depth within the bound. -/
theorem C4_depth_pruning_witness :
    ("a/b/c", 3) ∈ (scan_skills demoDeepRemote "o" "r" none none 10).2 ∧
    ("a/b/c", 3).2 ≤ MAX_DEPTH :=
  ⟨by decide,
   C4_depth_pruning.1 demoDeepRemote "o" "r" none none 10 ("a/b/c", 3) (by decide)⟩

/-! ## Claim C3: a Skill's path field -/

/-- C3 counterexample: the skill parsed from the repository-relative
directory `b/c` carries `path = "c"` — the last segment only — not the
repository-root-relative path `b/c` the claim states. -/
theorem C3_counterexample :
    (parse_skill_directory "acme" "skills" "b/c" none "").path = "c" ∧
    ("c" : String) ≠ "b/c" :=
  ⟨rfl, by decide⟩

/-- C3 amended: a Skill's `path` field is the last segment of its
repository-relative directory (the folder name), or the repository name
when the skill sits at the repository root; every skill a successful scan
returns has this form. -/
theorem C3_amended_path_is_folder_name :
    (∀ owner repo dir_path git_ref content,
      (parse_skill_directory owner repo dir_path git_ref content).path =
        (if dir_path = "" then repo else lastSegment dir_path)) ∧
    (∀ r owner repo base_path git_ref fuel skills,
      (scan_skills r owner repo base_path git_ref fuel).1 = .ok skills →
      ∀ s ∈ skills, ∃ dir txt, r.fileText (skillMdPath dir) = .ok txt ∧
        s.path = (if dir = "" then repo else lastSegment dir)) := by
  constructor
  · intro owner repo dir_path g content
    rfl
  · intro r o p b g fuel skills hok s hs
    obtain ⟨dir, txt, hft, hparse⟩ := scanLoop_skills_from r o p g fuel _ _ skills hok s hs
    refine ⟨dir, txt, hft, ?_⟩
    rw [hparse]
    rfl

/-- Witness for C3 amended, at the remote with a root-level manifest. -/
theorem C3_amended_path_is_folder_name_witness :
    ∃ dir txt, demoRootRemote.fileText (skillMdPath dir) = .ok txt ∧
      (parse_skill_directory "o" "r" "" none "").path =
        (if dir = "" then "r" else lastSegment dir) :=
  C3_amended_path_is_folder_name.2 demoRootRemote "o" "r" none none 5
    [parse_skill_directory "o" "r" "" none ""] rfl
    (parse_skill_directory "o" "r" "" none "") (List.mem_singleton.mpr rfl)

/-! ## Path lemmas (claims C1 and C10) -/

/-- Rebuilding a string from its character list is the identity. -/
theorem asString_toList (s : String) : s.toList.asString = s := rfl

/-- The same fact stated on the underlying data field. -/
theorem asString_data (s : String) : s.data.asString = s := rfl

/-- Splitting at a character that does not occur yields the whole input. -/
theorem splitCharAux_no_sep (c : Char) :
    ∀ (l acc : List Char), (∀ x ∈ l, x ≠ c) → splitCharAux c l acc = [acc.reverse ++ l] := by
  intro l
  induction l with
  | nil => intro acc _; simp [splitCharAux]
  | cons x xs ih =>
    intro acc h
    have hx : ¬x = c := h x (List.mem_cons_self _ _)
    rw [splitCharAux, if_neg hx, ih (x :: acc) (fun y hy => h y (List.mem_cons_of_mem _ hy))]
    simp

/-- `splitChar` at an absent character yields the whole string. -/
theorem splitChar_no_sep (c : Char) (s : String) (h : strContains s c = false) :
    splitChar c s = [s] := by
  have hall : ∀ x ∈ s.toList, x ≠ c := by
    intro x hx hxc
    subst hxc
    have : s.toList.elem x = true := List.elem_eq_true_of_mem hx
    rw [strContains] at h
    rw [List.contains] at h
    exact absurd this (by rw [h]; decide)
  rw [splitChar, splitCharAux_no_sep c s.toList [] hall]
  simp [asString_toList, asString_data]

/-- A one-character pattern can only be a prefix of a list containing it. -/
theorem isPrefixOf_single_mem (c : Char) (l : List Char)
    (h : List.isPrefixOf [c] l = true) : c ∈ l := by
  cases l with
  | nil => simp [List.isPrefixOf] at h
  | cons b bs =>
    simp [List.isPrefixOf] at h
    rw [h]
    exact List.mem_cons_self _ _

/-- A two-character pattern can only be a prefix of a list containing its
second character. -/
theorem isPrefixOf_pair_mem (a b : Char) (l : List Char)
    (h : List.isPrefixOf [a, b] l = true) : b ∈ l := by
  cases l with
  | nil => simp [List.isPrefixOf] at h
  | cons x xs =>
    cases xs with
    | nil => simp [List.isPrefixOf] at h
    | cons y ys =>
      simp [List.isPrefixOf] at h
      rw [h.2]
      exact List.mem_cons_of_mem _ (List.mem_cons_self _ _)

/-- A name without separators that is none of `""`, `"."`, `".."` parses as
a single normal component. -/
theorem parseComponents_single (name : String) (hsep : strContains name '/' = false)
    (h1 : name ≠ "") (h2 : name ≠ ".") (h3 : name ≠ "..") :
    parseComponents name = [PathComponent.normal name] := by
  have hmem : ('/' : Char) ∉ name.toList := by
    intro hm
    have : name.toList.elem '/' = true := List.elem_eq_true_of_mem hm
    rw [strContains, List.contains] at hsep
    exact absurd this (by rw [hsep]; decide)
  have habs : strStarts name "/" = false := by
    cases hq : strStarts name "/"
    · rfl
    · rw [strStarts] at hq
      exact absurd (isPrefixOf_single_mem _ _ (by simpa using hq)) hmem
  have hdot : strStarts name "./" = false := by
    cases hq : strStarts name "./"
    · rfl
    · rw [strStarts] at hq
      exact absurd (isPrefixOf_pair_mem _ _ _ (by simpa using hq)) hmem
  rw [parseComponents, splitChar_no_sep '/' name hsep]
  simp [habs, hdot, h1, h2, h3]

/-- Joining a separator-free plain name appends one normal component. -/
theorem pathJoin_single (base : List PathComponent) (name : String)
    (hsep : strContains name '/' = false)
    (h1 : name ≠ "") (h2 : name ≠ ".") (h3 : name ≠ "..") :
    pathJoin base name = base ++ [PathComponent.normal name] := by
  have habs : pathIsAbsolute name = false := by
    cases hq : pathIsAbsolute name
    · rfl
    · rw [pathIsAbsolute, strStarts] at hq
      have hm := isPrefixOf_single_mem _ _ (by simpa using hq)
      have : name.toList.elem '/' = true := List.elem_eq_true_of_mem hm
      rw [strContains, List.contains] at hsep
      exact absurd this (by rw [hsep]; decide)
  rw [pathJoin, habs]
  simp [parseComponents_single name hsep h1 h2 h3]

/-- Resolution walks through normal components by appending them. -/
theorem resolve_normals (l : List String) :
    ∀ (acc : List String) (rest : List PathComponent),
      resolve acc (l.map PathComponent.normal ++ rest) = resolve (acc ++ l) rest := by
  induction l with
  | nil => intro acc rest; simp
  | cons a as ih =>
    intro acc rest
    simp only [List.map_cons, List.cons_append, resolve, List.append_eq]
    rw [ih (acc ++ [a]) rest]
    simp

/-- The skills directory extended with one plain name resolves inside it. -/
theorem resolve_abs_single (root : List String) (name : String) :
    resolve [] (absOf root ++ [PathComponent.normal name]) = root ++ [name] := by
  have : absOf root ++ [PathComponent.normal name] =
      PathComponent.rootDir :: ((root ++ [name]).map PathComponent.normal ++ []) := by
    simp [absOf]
  rw [this, resolve, resolve_normals (root ++ [name]) [] []]
  rfl

/-- A list is a Boolean prefix of itself followed by anything. -/
theorem isPrefixOf_append_self (l t : List String) :
    List.isPrefixOf l (l ++ t) = true := by
  induction l with
  | nil => cases t <;> rfl
  | cons a as ih => simp [List.isPrefixOf, ih]

/-! ## Claim C10: uninstall and read join the name without validation -/

/-- C10: `uninstall_skill` and `get_skill_content` join the caller-supplied
name directly onto the skills root with none of the path validation
`install_skill` applies: for a name free of separators and
parent-directory segments the affected path is `skills_root/name` (inside
the root), the only failure either operation can produce is NotFound —
never an input-validation error — and for the traversal name `"../x"` the
directory removed resolves outside the skills root. -/
theorem C10_join_without_validation :
    (∀ root pe name, strContains name '/' = false → name ≠ "" → name ≠ "." → name ≠ ".." →
      pathJoin (absOf root) name = absOf root ++ [PathComponent.normal name] ∧
      resolve [] (pathJoin (absOf root) name) = root ++ [name] ∧
      List.isPrefixOf root (resolve [] (pathJoin (absOf root) name)) = true ∧
      (pe (pathJoin (absOf root) name) = true →
        (uninstall_skill root pe name).1 =
          [FsOp.removeDirAll (absOf root ++ [PathComponent.normal name])])) ∧
    (∀ root pe rd name, strContains name '/' = false → name ≠ "" → name ≠ "." → name ≠ ".." →
      pe (absOf root ++ [PathComponent.normal name, PathComponent.normal "SKILL.md"]) = true →
      (get_skill_content root pe rd name).1 =
        [FsOp.readFile (absOf root ++
          [PathComponent.normal name, PathComponent.normal "SKILL.md"])]) ∧
    (∀ root pe name, (uninstall_skill root pe name).2 = .ok () ∨
      (uninstall_skill root pe name).2 = .error (.notFound name)) ∧
    (∀ root pe rd name, (get_skill_content root pe rd name).2 = .ok (rd (pathJoin
        (pathJoin (absOf root) name) "SKILL.md")) ∨
      (get_skill_content root pe rd name).2 = .error (.notFound name)) ∧
    ((uninstall_skill demoRoot (fun _ => true) "../x").1 =
       [FsOp.removeDirAll (absOf demoRoot ++
          [PathComponent.parentDir, PathComponent.normal "x"])] ∧
     (uninstall_skill demoRoot (fun _ => true) "../x").2 = .ok () ∧
     resolve [] (absOf demoRoot ++ [PathComponent.parentDir, PathComponent.normal "x"]) =
       ["home", "user", ".claude", "x"] ∧
     List.isPrefixOf demoRoot
        (resolve [] (absOf demoRoot ++ [PathComponent.parentDir, PathComponent.normal "x"]))
       = false) := by
  refine ⟨?_, ?_, ?_, ?_, ?_⟩
  · intro root pe name hsep h1 h2 h3
    have hj := pathJoin_single (absOf root) name hsep h1 h2 h3
    refine ⟨hj, ?_, ?_, ?_⟩
    · rw [hj, resolve_abs_single]
    · rw [hj, resolve_abs_single]
      exact isPrefixOf_append_self root [name]
    · intro hpe
      rw [uninstall_skill]
      simp only [hj] at hpe ⊢
      simp [hpe]
  · intro root pe rd name hsep h1 h2 h3 hpe
    have hj := pathJoin_single (absOf root) name hsep h1 h2 h3
    have hj2 : pathJoin (pathJoin (absOf root) name) "SKILL.md" =
        absOf root ++ [PathComponent.normal name, PathComponent.normal "SKILL.md"] := by
      rw [hj, pathJoin_single _ "SKILL.md" (by decide) (by decide) (by decide) (by decide)]
      simp
    rw [get_skill_content]
    simp only [hj2] at hpe ⊢
    simp [hpe]
  · intro root pe name
    rw [uninstall_skill]
    by_cases hpe : pe (pathJoin (absOf root) name) = true
    · simp [hpe]
    · simp [hpe]
  · intro root pe rd name
    rw [get_skill_content]
    by_cases hpe : pe (pathJoin (pathJoin (absOf root) name) "SKILL.md") = true
    · simp [hpe]
    · simp [hpe]
  · refine ⟨?_, ?_, by decide, by decide⟩
    · have : pathJoin (absOf demoRoot) "../x" =
          absOf demoRoot ++ [PathComponent.parentDir, PathComponent.normal "x"] := by decide
      rw [uninstall_skill]
      simp [this]
    · rw [uninstall_skill]
      simp

/-- Witness for C10 at the concrete name `myskill`. -/
theorem C10_join_without_validation_witness :
    pathJoin (absOf demoRoot) "myskill" =
      absOf demoRoot ++ [PathComponent.normal "myskill"] ∧
    resolve [] (pathJoin (absOf demoRoot) "myskill") = demoRoot ++ ["myskill"] ∧
    List.isPrefixOf demoRoot (resolve [] (pathJoin (absOf demoRoot) "myskill")) = true ∧
    ((fun _ => true) (pathJoin (absOf demoRoot) "myskill") = true →
      (uninstall_skill demoRoot (fun _ => true) "myskill").1 =
        [FsOp.removeDirAll (absOf demoRoot ++ [PathComponent.normal "myskill"])]) :=
  C10_join_without_validation.1 demoRoot (fun _ => true) "myskill"
    (by decide) (by decide) (by decide) (by decide)

/-! ## Claim C1: install rejects absolute and traversal paths -/

/-- A file list containing an invalid relative path makes the install loop
fail with the input-validation error. -/
theorem installLoop_invalid (sp : List PathComponent) :
    ∀ files, (∃ f ∈ files, isInvalidRelPath f.1 = true) →
      ∃ m, (installLoop sp files).2 = .error (.ioInvalid m) := by
  intro files
  induction files with
  | nil =>
    intro h
    rcases h with ⟨f, hf, _⟩
    simp at hf
  | cons fc rest ih =>
    intro h
    obtain ⟨rel, cnt⟩ := fc
    by_cases hinv : isInvalidRelPath rel = true
    · exact ⟨"Invalid relative path: " ++ rel, by simp [installLoop, hinv]⟩
    · rcases h with ⟨f, hf, hfi⟩
      rcases List.mem_cons.mp hf with hh | hh
      · rw [hh] at hfi
        exact absurd hfi hinv
      · obtain ⟨m, hm⟩ := ih ⟨f, hh, hfi⟩
        refine ⟨m, ?_⟩
        rw [installLoop, if_neg hinv]
        exact hm

/-- Every file write the install loop issues is at a validated relative
path joined under the skill directory. -/
theorem installLoop_writes (sp : List PathComponent) :
    ∀ files p c, FsOp.writeFile p c ∈ (installLoop sp files).1 →
      ∃ rel cnt, (rel, cnt) ∈ files ∧ isInvalidRelPath rel = false ∧
        p = sp ++ parseComponents rel := by
  intro files
  induction files with
  | nil =>
    intro p c hmem
    simp [installLoop] at hmem
  | cons fc rest ih =>
    intro p c hmem
    obtain ⟨rel, cnt⟩ := fc
    by_cases hinv : isInvalidRelPath rel = true
    · rw [installLoop, if_pos hinv] at hmem
      simp at hmem
    · rw [installLoop, if_neg hinv] at hmem
      rw [Bool.not_eq_true] at hinv
      by_cases hsc : isScriptPath rel = true
      · simp only [hsc, if_true, List.cons_append, List.nil_append,
          List.mem_cons, List.mem_append] at hmem
        rcases hmem with hh | hh | hh | hh
        · simp at hh
        · refine ⟨rel, cnt, List.mem_cons_self _ _, hinv, ?_⟩
          injection hh with hp hc
        · simp at hh
        · obtain ⟨rel2, cnt2, hmem2, hv2, hp2⟩ := ih p c hh
          exact ⟨rel2, cnt2, List.mem_cons_of_mem _ hmem2, hv2, hp2⟩
      · simp only [hsc, if_false, List.cons_append, List.nil_append,
          List.mem_cons] at hmem
        rcases hmem with hh | hh | hh
        · simp at hh
        · refine ⟨rel, cnt, List.mem_cons_self _ _, hinv, ?_⟩
          injection hh with hp hc
        · obtain ⟨rel2, cnt2, hmem2, hv2, hp2⟩ := ih p c hh
          exact ⟨rel2, cnt2, List.mem_cons_of_mem _ hmem2, hv2, hp2⟩

/-- C1: when the skill directory is fresh, a file list containing an
absolute or parent-traversal relative path makes `install_skill` fail
with the input-validation IO error; every file the installer does write
goes to a validated path under the skill directory; and for the single
offending files `"../x"` and `"/etc/passwd"` the whole filesystem trace
is the creation of the (empty) skill directory — no file is written. -/
theorem C1_install_rejects_invalid_paths :
    (∀ root pe name files,
      pe (pathJoin (absOf root) name) = false →
      (∃ f ∈ files, isInvalidRelPath f.1 = true) →
      ∃ m, (install_skill root pe name files).2 = .error (.ioInvalid m)) ∧
    (∀ root pe name files p c,
      FsOp.writeFile p c ∈ (install_skill root pe name files).1 →
      ∃ rel cnt, (rel, cnt) ∈ files ∧ isInvalidRelPath rel = false ∧
        p = pathJoin (absOf root) name ++ parseComponents rel) ∧
    (∀ root pe name c, pe (pathJoin (absOf root) name) = false →
      (install_skill root pe name [("../x", c)]).1 =
        [FsOp.createDirAll (pathJoin (absOf root) name)] ∧
      (install_skill root pe name [("../x", c)]).2 =
        .error (.ioInvalid "Invalid relative path: ../x")) ∧
    (∀ root pe name c, pe (pathJoin (absOf root) name) = false →
      (install_skill root pe name [("/etc/passwd", c)]).1 =
        [FsOp.createDirAll (pathJoin (absOf root) name)] ∧
      (install_skill root pe name [("/etc/passwd", c)]).2 =
        .error (.ioInvalid "Invalid relative path: /etc/passwd")) := by
  refine ⟨?_, ?_, ?_, ?_⟩
  · intro root pe name files hpe hbad
    obtain ⟨m, hm⟩ := installLoop_invalid (pathJoin (absOf root) name) files hbad
    refine ⟨m, ?_⟩
    rw [install_skill]
    simp [hpe, hm]
  · intro root pe name files p c hmem
    rw [install_skill] at hmem
    by_cases hpe : pe (pathJoin (absOf root) name) = true
    · simp [hpe] at hmem
    · simp only [hpe, Bool.false_eq_true, if_false, List.mem_cons] at hmem
      rcases hmem with hh | hh
      · simp at hh
      · exact installLoop_writes _ files p c hh
  · intro root pe name c hpe
    have hbad : isInvalidRelPath "../x" = true := by decide
    rw [install_skill]
    constructor <;> simp [hpe, installLoop, hbad]
  · intro root pe name c hpe
    have hbad : isInvalidRelPath "/etc/passwd" = true := by decide
    rw [install_skill]
    constructor <;> simp [hpe, installLoop, hbad]

/-- Witness for C1, installing the single file `"../x"` into a fresh
directory under the concrete skills root. -/
theorem C1_install_rejects_invalid_paths_witness :
    (install_skill demoRoot (fun _ => false) "s" [("../x", [1])]).1 =
      [FsOp.createDirAll (pathJoin (absOf demoRoot) "s")] ∧
    (install_skill demoRoot (fun _ => false) "s" [("../x", [1])]).2 =
      .error (.ioInvalid "Invalid relative path: ../x") :=
  C1_install_rejects_invalid_paths.2.2.1 demoRoot (fun _ => false) "s" [1] rfl

end MySkills

